import Mathlib

/-!
Verification of the SQL task execution engine of the Kewen_sql_api
repository against its specification.

The executable model below is a shallow embedding of
`src/database/executor.js` (task executor and result normalizer) and of
`src/database/pool.js` (`DatabasePoolManager`).  JavaScript runtime values
are modelled by the inductive type `JSVal`; thrown errors by `JSError`
(name and message, matching a JS `Error` object); the mysql2 driver and
the database are modelled by an explicit connection state together with a
statement-semantics oracle, so that transactional behaviour is observable.
-/

namespace SqlApi

/-- A JavaScript runtime value, as far as the executor observes it:
`undefined`, `null`, booleans, numbers (the configs only carry integers),
strings, `Buffer`s, `Uint8Array`s, arrays and plain objects. -/
inductive JSVal where
  | undefined : JSVal
  | null : JSVal
  | bool (b : Bool) : JSVal
  | num (n : Int) : JSVal
  | str (s : String) : JSVal
  | buffer (bytes : List Nat) : JSVal
  | uint8 (bytes : List Nat) : JSVal
  | arr (elems : List JSVal) : JSVal
  | obj (fields : List (String × JSVal)) : JSVal

/-- Property lookup on a JS object's field list (first binding wins,
object literals have unique keys). -/
def lookupAssoc {α : Type} : List (String × α) → String → Option α
  | [], _ => none
  | (k, v) :: rest, key => if k = key then some v else lookupAssoc rest key

/-- `'k' in o` / `o.k`, with `undefined` for an absent property. -/
def fieldOr (fields : List (String × JSVal)) (key : String) : JSVal :=
  (lookupAssoc fields key).getD .undefined

/-- One byte of `Buffer.from(array)`: JS coerces each element with
`ToNumber(x) & 255`; the model keeps integer elements and sends anything
else to 0. -/
def byteOfVal : JSVal → Nat
  | .num n => (n % 256).toNat
  | _ => 0

/-- Is `c` a UTF-8 continuation byte? -/
def utf8Cont (b : Nat) : Bool := 128 ≤ b && b < 192

/-- Replacement character U+FFFD. -/
def replChar : Char := Char.ofNat 0xFFFD

/-- Guarded code point: surrogates and out-of-range values become U+FFFD. -/
def utf8CharOf (n : Nat) : Char :=
  if 0xD800 ≤ n ∧ n ≤ 0xDFFF then replChar
  else if n > 0x10FFFF then replChar
  else Char.ofNat n

/-- Number of continuation bytes a UTF-8 sequence headed by `b` expects. -/
def utf8ContCount (b : Nat) : Nat :=
  if b < 0xC0 then 0
  else if b < 0xE0 then 1
  else if b < 0xF0 then 2
  else if b < 0xF8 then 3
  else 0

/-- Decode one UTF-8 sequence: lead byte `b` with its continuation bytes. -/
def utf8DecodeOne (b : Nat) (cont : List Nat) : Char :=
  if b < 0x80 then Char.ofNat b
  else if b < 0xC0 then replChar
  else if b < 0xE0 then
    match cont with
    | [b1] =>
      if utf8Cont b1 then utf8CharOf ((b - 0xC0) * 0x40 + (b1 - 0x80))
      else replChar
    | _ => replChar
  else if b < 0xF0 then
    match cont with
    | [b1, b2] =>
      if utf8Cont b1 && utf8Cont b2 then
        utf8CharOf ((b - 0xE0) * 0x1000 + (b1 - 0x80) * 0x40 + (b2 - 0x80))
      else replChar
    | _ => replChar
  else if b < 0xF8 then
    match cont with
    | [b1, b2, b3] =>
      if utf8Cont b1 && utf8Cont b2 && utf8Cont b3 then
        utf8CharOf ((b - 0xF0) * 0x40000 + (b1 - 0x80) * 0x1000
          + (b2 - 0x80) * 0x40 + (b3 - 0x80))
      else replChar
    | _ => replChar
  else replChar

/-- UTF-8 decoding of a byte list, modelling `Buffer.prototype.toString('utf8')`
(a permissive decoder; ill-formed sequences yield U+FFFD — the exact
replacement policy of Node is not load-bearing for any claim). -/
def utf8DecodeList : List Nat → List Char
  | [] => []
  | b :: rest =>
    utf8DecodeOne b (rest.take (utf8ContCount b))
      :: utf8DecodeList (rest.drop (utf8ContCount b))
termination_by bs => bs.length
decreasing_by simp [List.length_drop]; omega

/-- `Buffer.from(bytes).toString('utf8')`. -/
def utf8Decode (bytes : List Nat) : String := String.mk (utf8DecodeList bytes)

/-- The check on executor.js line 147:
`data && typeof data === 'object' && data.type === 'Buffer' && Array.isArray(data.data)` —
an already-JSON-serialized Buffer of the form `\x7btype: 'Buffer', data: [...]\x7d`. -/
def isSerializedBuffer (fields : List (String × JSVal)) : Bool :=
  (match lookupAssoc fields "type" with
   | some (.str t) => t = "Buffer"
   | _ => false)
  &&
  (match lookupAssoc fields "data" with
   | some (.arr _) => true
   | _ => false)

/-- The byte list of a serialized Buffer object (`Buffer.from(data.data)`). -/
def serializedBytes (fields : List (String × JSVal)) : List Nat :=
  match lookupAssoc fields "data" with
  | some (.arr elems) => elems.map byteOfVal
  | _ => []

mutual

/-- executor.js `convertBuffers` (lines 127–167): recursively convert every
`Buffer`, `Uint8Array` and serialized-Buffer object inside `data` to a
UTF-8 string; recurse into arrays and objects; leave everything else as is. -/
def convertBuffers : JSVal → JSVal
  | .undefined => .undefined
  | .null => .null
  | .bool b => .bool b
  | .num n => .num n
  | .str s => .str s
  | .buffer bytes => .str (utf8Decode bytes)
  | .uint8 bytes => .str (utf8Decode bytes)
  | .obj fields =>
    if isSerializedBuffer fields then .str (utf8Decode (serializedBytes fields))
    else .obj (convertBuffersFields fields)
  | .arr elems => .arr (convertBuffersList elems)

/-- `data.map(item => convertBuffers(item))`. -/
def convertBuffersList : List JSVal → List JSVal
  | [] => []
  | x :: rest => convertBuffers x :: convertBuffersList rest

/-- The `for (const key of Object.keys(data))` loop of `convertBuffers`. -/
def convertBuffersFields : List (String × JSVal) → List (String × JSVal)
  | [] => []
  | (k, v) :: rest => (k, convertBuffers v) :: convertBuffersFields rest

end

/-- executor.js `formatResult` (lines 173–198): a mutation result (an object
with an `affectedRows` property) is shaped to exactly
`\x7baffectedRows, insertId, warningCount\x7d`; an array (query result) is
buffer-converted, then a single row is unwrapped and any other length is
returned as the array; anything else is buffer-converted and returned. -/
def formatResult (rows : JSVal) : JSVal :=
  match rows with
  | .obj fields =>
    if (lookupAssoc fields "affectedRows").isSome then
      .obj [("affectedRows", fieldOr fields "affectedRows"),
            ("insertId", fieldOr fields "insertId"),
            ("warningCount", fieldOr fields "warningCount")]
    else convertBuffers (.obj fields)
  | .arr elems =>
    match convertBuffersList elems with
    | [row] => row
    | converted => .arr converted
  | other => convertBuffers other

/-- The value `formatResult` returns for a zero-row query result: the empty
array, the code's "no result" marker (distinct from the empty object). -/
def noResultMarker : JSVal := .arr []

/-- A thrown JavaScript `Error`: its `name` (the error kind the route layer
reports) and its `message`. -/
structure JSError where
  name : String
  message : String
deriving DecidableEq

/-- The validated parameter map handed to the executor for one request. -/
abbrev Params := List (String × JSVal)

/-- The value the parameter map binds to `name`. -/
def paramValue (params : Params) (name : String) : JSVal :=
  (lookupAssoc params name).getD .undefined

/-- Modelled from the spec: the binding error of §4.2 for a placeholder
naming a key absent from the parameter map (`MissingParameter`). -/
def missingParameterError (name : String) : JSError :=
  { name := "MissingParameter", message := "Missing parameter: " ++ name }

/-- A character an identifier may consist of. -/
def isIdentChar (c : Char) : Bool := c.isAlpha || c.isDigit || c = '_'

/-- Modelled from the spec: after the sigil `#`, recognise `\x7bname\x7d`
for a nonempty identifier `name`; return the name and the characters
following the closing brace, or `none` when the sigil does not open a
well-formed placeholder. -/
def tryPlaceholder (cs : List Char) : Option (String × List Char) :=
  match cs with
  | '{' :: cs2 =>
    match cs2.dropWhile isIdentChar with
    | '}' :: rest =>
      if (cs2.takeWhile isIdentChar).isEmpty then none
      else some (String.mk (cs2.takeWhile isIdentChar), rest)
    | _ => none
  | _ => none

theorem tryPlaceholder_length {cs : List Char} {name : String} {rest : List Char}
    (h : tryPlaceholder cs = some (name, rest)) : rest.length < cs.length := by
  unfold tryPlaceholder at h
  split at h
  case h_2 => exact absurd h (by simp)
  case h_1 c cs2 =>
    split at h
    case h_2 => exact absurd h (by simp)
    case h_1 rest2 heq =>
      split at h
      · exact absurd h (by simp)
      · have hlen : (cs2.dropWhile isIdentChar).length ≤ cs2.length :=
          (List.dropWhile_sublist _).length_le
        rw [heq] at hlen
        simp only [Option.some.injEq, Prod.mk.injEq] at h
        obtain ⟨-, hrest⟩ := h
        subst hrest
        simp only [List.length_cons] at hlen ⊢
        omega

/-- Modelled from the spec (§4.2, the part of `queryParser.js` that is not in
the repository snapshot): scan the template left-to-right; each `#\x7bname\x7d`
occurrence is looked up in the parameter map and replaced by the positional
marker `?`, its value appended to the ordered argument list; a name absent
from the map is a `MissingParameter` binding error; a `#` not opening a
well-formed placeholder is left untouched. -/
def scanSql (params : Params) : List Char → Except JSError (List Char × List JSVal)
  | [] => .ok ([], [])
  | '#' :: cs =>
    match h : tryPlaceholder cs with
    | some (name, rest) =>
      match lookupAssoc params name with
      | some v =>
        match scanSql params rest with
        | .ok (out, args) => .ok ('?' :: out, v :: args)
        | .error e => .error e
      | none => .error (missingParameterError name)
    | none =>
      match scanSql params cs with
      | .ok (out, args) => .ok ('#' :: out, args)
      | .error e => .error e
  | c :: cs =>
    match scanSql params cs with
    | .ok (out, args) => .ok (c :: out, args)
    | .error e => .error e
termination_by cs => cs.length
decreasing_by
  · have := tryPlaceholder_length h
    simp only [List.length_cons]
    omega
  · simp only [List.length_cons]
    omega
  · simp only [List.length_cons]
    omega

/-- The names of the template's placeholder occurrences, in left-to-right
template order (the spec's "i-th occurrence's name"); repeated names appear
once per occurrence. -/
def placeholderNames : List Char → List String
  | [] => []
  | '#' :: cs =>
    match h : tryPlaceholder cs with
    | some (name, rest) => name :: placeholderNames rest
    | none => placeholderNames cs
  | _ :: cs => placeholderNames cs
termination_by cs => cs.length
decreasing_by
  · have := tryPlaceholder_length h
    simp only [List.length_cons]
    omega
  · simp only [List.length_cons]
    omega
  · simp only [List.length_cons]
    omega

/-- Modelled from the spec: `parseSql(sqlText, requestParams)` of the missing
`queryParser.js` — §4.2's `bind`: rewrite the named-placeholder template to a
positional statement and the ordered argument list. -/
def parseSql (sqlText : String) (requestParams : Params) :
    Except JSError (String × List JSVal) :=
  match scanSql requestParams sqlText.data with
  | .ok (out, args) => .ok (String.mk out, args)
  | .error e => .error e

/-! ### The mysql2 connection, modelled

A pooled connection holds the durable database state it observes
(`committed`), its uncommitted working state (`pending`, equal to
`committed` whenever no transaction is open, since MySQL autocommits),
its session variables, whether a transaction is open, and whether the
driver supports `resetConnection()` (executor.js probes
`typeof connection.resetConnection === 'function'`). -/

/-- The state of one pooled connection. `Data` is the abstract type of the
durable database contents. -/
structure ConnState (Data : Type) where
  committed : Data
  pending : Data
  session : List (String × JSVal)
  inTxn : Bool
  hasReset : Bool

/-- The semantics of executing one bound SQL statement, supplied as an
oracle: from the statement text, its positional arguments, the data the
connection currently sees and its session variables, produce either a
driver error or the new data, the new session and the raw result rows. -/
abbrev StmtSem (Data : Type) :=
  String → List JSVal → Data → List (String × JSVal) →
    Except JSError (Data × List (String × JSVal) × JSVal)

/-- `connection.beginTransaction()`. -/
def connBegin {Data : Type} (c : ConnState Data) : ConnState Data :=
  { c with inTxn := true, pending := c.committed }

/-- `connection.commit()`: publish the pending work. -/
def connCommit {Data : Type} (c : ConnState Data) : ConnState Data :=
  { c with committed := c.pending, inTxn := false }

/-- `connection.rollback()`: discard the pending work. -/
def connRollback {Data : Type} (c : ConnState Data) : ConnState Data :=
  { c with pending := c.committed, inTxn := false }

/-- `connection.execute(sql, params)`: run the statement on the
connection's working state; inside a transaction the durable state is
untouched, outside one MySQL autocommits the statement's effect. -/
def connExec {Data : Type} (sem : StmtSem Data) (c : ConnState Data)
    (sql : String) (args : List JSVal) :
    Except JSError (ConnState Data × JSVal) :=
  match sem sql args c.pending c.session with
  | .error e => .error e
  | .ok (d, s, rows) =>
    if c.inTxn then .ok ({ c with pending := d, session := s }, rows)
    else .ok ({ c with pending := d, committed := d, session := s }, rows)

/-- The observable per-connection events of one task execution, in order. -/
inductive ConnEvent where
  | acquire : ConnEvent
  | beginTxn : ConnEvent
  | exec (sql : String) (args : List JSVal) : ConnEvent
  | commit : ConnEvent
  | rollback : ConnEvent
  | resetSession : ConnEvent
  | resetSessionFailed : ConnEvent
  | resetSkipped : ConnEvent
  | release : ConnEvent

/-- Is the event a statement execution? -/
def ConnEvent.isExec : ConnEvent → Bool
  | .exec _ _ => true
  | _ => false

/-- Is the event an outcome of the session-cleanup step? -/
def ConnEvent.isCleanup : ConnEvent → Bool
  | .resetSession => true
  | .resetSessionFailed => true
  | .resetSkipped => true
  | _ => false

/-- Number of `acquire` events in a trace. -/
def countAcquire : List ConnEvent → Nat
  | [] => 0
  | .acquire :: rest => countAcquire rest + 1
  | _ :: rest => countAcquire rest

/-- Number of `release` events in a trace. -/
def countRelease : List ConnEvent → Nat
  | [] => 0
  | .release :: rest => countRelease rest + 1
  | _ :: rest => countRelease rest

/-- executor.js `cleanupSessionVariables` (lines 217–233): if the driver
supports `resetConnection()`, reset the session state — a failure of the
reset (`resetFails`) is caught and only logged; on drivers without the
method the cleanup is skipped with a warning.  Never throws. -/
def cleanupSessionVariables {Data : Type} (resetFails : Bool)
    (c : ConnState Data) : ConnState Data × ConnEvent :=
  if c.hasReset then
    if resetFails then (c, .resetSessionFailed)
    else ({ c with session := [] }, .resetSession)
  else (c, .resetSkipped)

/-- One entry of a task's `sqlList`. -/
structure SqlItem where
  sqlText : String

/-- The `for (const sqlItem of sqlList)` loop shared by both executors
(executor.js lines 53–62 and 93–102): parse each statement, execute it on
the held connection, keep the most recent raw result.  Returns the loop's
outcome (last raw result, or the first error), the connection afterwards,
and the trace of executed statements. -/
def runSqlList {Data : Type} (sem : StmtSem Data) (requestParams : Params) :
    List SqlItem → ConnState Data → JSVal →
    Except JSError JSVal × ConnState Data × List ConnEvent
  | [], conn, lastResult => (.ok lastResult, conn, [])
  | item :: rest, conn, _lastResult =>
    match parseSql item.sqlText requestParams with
    | .error e => (.error e, conn, [])
    | .ok (sql, args) =>
      match connExec sem conn sql args with
      | .error e => (.error e, conn, [.exec sql args])
      | .ok (conn2, rows) =>
        let r := runSqlList sem requestParams rest conn2 rows
        (r.1, r.2.1, .exec sql args :: r.2.2)

/-- Reference sequential semantics of a statement list: thread the data and
the session from each statement into the next, keep the last raw result
(starting, like the executor's `lastResult`, from the given value).  This is
the "all statements' effects" of the atomicity invariant and the chained
session of the connection-affinity invariant. -/
def applyAll {Data : Type} (sem : StmtSem Data) (requestParams : Params) :
    List SqlItem → Data → List (String × JSVal) → JSVal →
    Except JSError (Data × List (String × JSVal) × JSVal)
  | [], d, s, lastResult => .ok (d, s, lastResult)
  | item :: rest, d, s, _lastResult =>
    match parseSql item.sqlText requestParams with
    | .error e => .error e
    | .ok (sql, args) =>
      match sem sql args d s with
      | .error e => .error e
      | .ok (d2, s2, rows) => applyAll sem requestParams rest d2 s2 rows

/-- The exec events of a statement list, in declared order (meaningful when
every statement parses, which the success hypotheses below guarantee). -/
def execEvents (requestParams : Params) : List SqlItem → List ConnEvent
  | [] => []
  | item :: rest =>
    match parseSql item.sqlText requestParams with
    | .ok (sql, args) => .exec sql args :: execEvents requestParams rest
    | .error _ => []

/-! ### The connection pool manager (pool.js `DatabasePoolManager`) -/

/-- One live pool; `conn` is the connection `pool.getConnection()` hands to
the task. -/
structure Pool (Data : Type) where
  conn : ConnState Data

/-- The pool manager's state: the `Map` of datasource id to live pool. -/
structure PoolManager (Data : Type) where
  pools : List (String × Pool Data)

/-- pool.js `datasourceMapping`: the datasource ids known at startup. -/
def datasourceMapping : List (String × String) :=
  [("YYKtG9Dv", "DB1"), ("ukG1SAgu", "DB2"), ("q45gsAZj", "DB3")]

/-- The `for ... of Object.entries(this.datasourceMapping)` loop of
pool.js `initialize` (lines 160–208): for each datasource, create its pool
and probe one connection; an unreachable datasource (`reachable` false) is
caught, logged and skipped — the loop continues and no error escapes. -/
def buildPools {Data : Type} (reachable : String → Bool)
    (mkConn : String → ConnState Data) :
    List (String × String) → List (String × Pool Data)
  | [] => []
  | (dsId, _env) :: rest =>
    if reachable dsId then
      (dsId, { conn := mkConn dsId }) :: buildPools reachable mkConn rest
    else buildPools reachable mkConn rest

/-- pool.js `DatabasePoolManager.initialize`, abstracted over which
datasources answer the startup liveness probe (`reachable`) and over the
connection each created pool will hand out (`mkConn`). -/
def initializePools {Data : Type} (reachable : String → Bool)
    (mkConn : String → ConnState Data) : PoolManager Data :=
  { pools := buildPools reachable mkConn datasourceMapping }

/-- pool.js `getPool` (lines 213–219): look the datasource up in the map and
throw a plain `Error` (message `数据源 <id> 不存在`) when it has no pool. -/
def getPool {Data : Type} (pm : PoolManager Data) (datasourceId : String) :
    Except JSError (Pool Data) :=
  match lookupAssoc pm.pools datasourceId with
  | some pool => .ok pool
  | none => .error { name := "Error"
                     message := "数据源 " ++ datasourceId ++ " 不存在" }

/-! ### The task executor (executor.js) -/

/-- executor.js `executeTransaction` (lines 44–77):
`try \x7b begin; loop; commit; return format \x7d catch \x7b rollback; rethrow \x7d
finally \x7b cleanup; release \x7d`.  Returns the caller-visible outcome, the
connection's state at the moment it is released back to the pool, and the
ordered event trace. -/
def executeTransaction {Data : Type} (sem : StmtSem Data) (resetFails : Bool)
    (pm : PoolManager Data) (datasourceId : String) (sqlList : List SqlItem)
    (requestParams : Params) :
    Except JSError JSVal × Option (ConnState Data) × List ConnEvent :=
  match getPool pm datasourceId with
  | .error e => (.error e, none, [])
  | .ok pool =>
    let c1 := connBegin pool.conn
    let r := runSqlList sem requestParams sqlList c1 .null
    match r.1 with
    | .ok lastResult =>
      let c3 := connCommit r.2.1
      let cl := cleanupSessionVariables resetFails c3
      (.ok (formatResult lastResult), some cl.1,
        .acquire :: .beginTxn :: (r.2.2 ++ [.commit, cl.2, .release]))
    | .error e =>
      let c3 := connRollback r.2.1
      let cl := cleanupSessionVariables resetFails c3
      (.error e, some cl.1,
        .acquire :: .beginTxn :: (r.2.2 ++ [.rollback, cl.2, .release]))

/-- executor.js `executeNonTransaction` (lines 86–114): the same loop on one
acquired connection, without begin/commit/rollback;
`try \x7b loop; return format \x7d catch \x7b rethrow \x7d finally \x7b cleanup; release \x7d`. -/
def executeNonTransaction {Data : Type} (sem : StmtSem Data) (resetFails : Bool)
    (pm : PoolManager Data) (datasourceId : String) (sqlList : List SqlItem)
    (requestParams : Params) :
    Except JSError JSVal × Option (ConnState Data) × List ConnEvent :=
  match getPool pm datasourceId with
  | .error e => (.error e, none, [])
  | .ok pool =>
    let r := runSqlList sem requestParams sqlList pool.conn .null
    let cl := cleanupSessionVariables resetFails r.2.1
    match r.1 with
    | .ok lastResult =>
      (.ok (formatResult lastResult), some cl.1,
        .acquire :: (r.2.2 ++ [cl.2, .release]))
    | .error e =>
      (.error e, some cl.1, .acquire :: (r.2.2 ++ [cl.2, .release]))

/-- One task of the config: `\x7bdatasourceId, sqlList, transaction\x7d`; the
transaction flag is the number the JSON config carries (the executor tests
`transaction === 1`). -/
structure Task where
  datasourceId : String
  sqlList : List SqlItem
  transaction : Int

/-- The `for (const task of tasks)` loop of executor.js `executeApiTask`
(lines 18–30): run each task — transactionally iff its flag is `1` — and
collect the per-task results in order; a task's error aborts the loop and
propagates. -/
def runTasks {Data : Type} (sem : StmtSem Data) (resetFails : Bool)
    (pm : PoolManager Data) (requestParams : Params) :
    List Task → Except JSError (List JSVal)
  | [] => .ok []
  | task :: rest =>
    let r :=
      if task.transaction = 1 then
        (executeTransaction sem resetFails pm task.datasourceId
          task.sqlList requestParams).1
      else
        (executeNonTransaction sem resetFails pm task.datasourceId
          task.sqlList requestParams).1
    match r with
    | .error e => .error e
    | .ok v =>
      match runTasks sem resetFails pm requestParams rest with
      | .error e => .error e
      | .ok vs => .ok (v :: vs)

/-! ### `JSON.parse` on a task config string

executor.js line 13 parses a string task config once:
`typeof taskConfig === 'string' ? JSON.parse(taskConfig) : taskConfig`.
`JSON.parse` is a JS builtin; the model below implements it for the JSON
fragment a task config lives in (integer numbers), followed by the shape
reading the destructuring on line 19 performs. -/

/-- JSON whitespace skipping. -/
def jsonWs (cs : List Char) : List Char :=
  cs.dropWhile (fun c => c = ' ' || c = '\n' || c = '\t' || c = '\r')

/-- Hexadecimal digit value. -/
def hexVal (c : Char) : Option Nat :=
  if c.isDigit then some (c.toNat - '0'.toNat)
  else if 'a' ≤ c ∧ c ≤ 'f' then some (c.toNat - 'a'.toNat + 10)
  else if 'A' ≤ c ∧ c ≤ 'F' then some (c.toNat - 'A'.toNat + 10)
  else none

/-- Parse the body of a JSON string literal (the opening quote already
consumed), handling the escape sequences of the JSON grammar. -/
def parseJsonStringAux : List Char → List Char → Option (String × List Char)
  | acc, '"' :: rest => some (String.mk acc.reverse, rest)
  | acc, '\\' :: esc :: rest =>
    match esc with
    | '"' => parseJsonStringAux ('"' :: acc) rest
    | '\\' => parseJsonStringAux ('\\' :: acc) rest
    | '/' => parseJsonStringAux ('/' :: acc) rest
    | 'n' => parseJsonStringAux ('\n' :: acc) rest
    | 't' => parseJsonStringAux ('\t' :: acc) rest
    | 'r' => parseJsonStringAux ('\r' :: acc) rest
    | 'b' => parseJsonStringAux (Char.ofNat 8 :: acc) rest
    | 'f' => parseJsonStringAux (Char.ofNat 12 :: acc) rest
    | 'u' =>
      match rest with
      | h1 :: h2 :: h3 :: h4 :: rest4 =>
        match hexVal h1, hexVal h2, hexVal h3, hexVal h4 with
        | some n1, some n2, some n3, some n4 =>
          parseJsonStringAux
            (Char.ofNat (n1 * 4096 + n2 * 256 + n3 * 16 + n4) :: acc) rest4
        | _, _, _, _ => none
      | _ => none
    | _ => none
  | acc, c :: rest => parseJsonStringAux (c :: acc) rest
  | _, [] => none

/-- Parse a run of decimal digits into a natural number. -/
def parseJsonDigits (cs : List Char) : Option (Nat × List Char) :=
  let digits := cs.takeWhile Char.isDigit
  if digits.isEmpty then none
  else some (digits.foldl (fun n c => n * 10 + (c.toNat - '0'.toNat)) 0,
             cs.dropWhile Char.isDigit)

mutual

/-- Parse one JSON value (integer-number fragment of the grammar), fuelled
by an upper bound on the nesting the input can hold. -/
def parseJsonVal : Nat → List Char → Option (JSVal × List Char)
  | 0, _ => none
  | fuel + 1, cs =>
    match jsonWs cs with
    | 'n' :: 'u' :: 'l' :: 'l' :: rest => some (.null, rest)
    | 't' :: 'r' :: 'u' :: 'e' :: rest => some (.bool true, rest)
    | 'f' :: 'a' :: 'l' :: 's' :: 'e' :: rest => some (.bool false, rest)
    | '"' :: rest =>
      match parseJsonStringAux [] rest with
      | some (s, rest2) => some (.str s, rest2)
      | none => none
    | '[' :: rest =>
      match parseJsonElems fuel rest with
      | some (elems, rest2) => some (.arr elems, rest2)
      | none => none
    | '{' :: rest =>
      match parseJsonMembers fuel rest with
      | some (fields, rest2) => some (.obj fields, rest2)
      | none => none
    | '-' :: rest =>
      match parseJsonDigits rest with
      | some (n, rest2) => some (.num (-(n : Int)), rest2)
      | none => none
    | c :: rest =>
      if c.isDigit then
        match parseJsonDigits (c :: rest) with
        | some (n, rest2) => some (.num (n : Int), rest2)
        | none => none
      else none
    | [] => none

/-- Parse the elements after `[`: either `]` at once, or values separated
by commas up to `]`. -/
def parseJsonElems : Nat → List Char → Option (List JSVal × List Char)
  | 0, _ => none
  | fuel + 1, cs =>
    match jsonWs cs with
    | ']' :: rest => some ([], rest)
    | cs2 =>
      match parseJsonVal fuel cs2 with
      | some (v, rest) =>
        match jsonWs rest with
        | ',' :: rest2 =>
          match parseJsonElems fuel rest2 with
          | some (vs, rest3) => some (v :: vs, rest3)
          | none => none
        | ']' :: rest2 => some ([v], rest2)
        | _ => none
      | none => none

/-- Parse the members after `\x7b`: either `\x7d` at once, or
`"key": value` pairs separated by commas. -/
def parseJsonMembers : Nat → List Char → Option (List (String × JSVal) × List Char)
  | 0, _ => none
  | fuel + 1, cs =>
    match jsonWs cs with
    | '}' :: rest => some ([], rest)
    | '"' :: rest =>
      match parseJsonStringAux [] rest with
      | some (key, rest2) =>
        match jsonWs rest2 with
        | ':' :: rest3 =>
          match parseJsonVal fuel rest3 with
          | some (v, rest4) =>
            match jsonWs rest4 with
            | ',' :: rest5 =>
              match parseJsonMembers fuel rest5 with
              | some (fields, rest6) => some ((key, v) :: fields, rest6)
              | none => none
            | '}' :: rest5 => some ([(key, v)], rest5)
            | _ => none
          | none => none
        | _ => none
      | none => none
    | _ => none

end

/-- Read one `sqlList` entry out of a parsed JSON value. -/
def jsValToSqlItem (v : JSVal) : Except JSError SqlItem :=
  match v with
  | .obj fields =>
    match lookupAssoc fields "sqlText" with
    | some (.str t) => .ok { sqlText := t }
    | _ => .error { name := "TypeError", message := "sqlItem without sqlText" }
  | _ => .error { name := "TypeError", message := "sqlItem is not an object" }

/-- Read one task out of a parsed JSON value: the destructuring
`const \x7b datasourceId, sqlList, transaction \x7d = task` of executor.js
line 19 (`transaction` other than the number 1 — including absent — means
non-transactional). -/
def jsValToTask (v : JSVal) : Except JSError Task :=
  match v with
  | .obj fields =>
    match lookupAssoc fields "datasourceId", lookupAssoc fields "sqlList" with
    | some (.str dsId), some (.arr items) =>
      match items.mapM jsValToSqlItem with
      | .ok sqlList =>
        .ok { datasourceId := dsId, sqlList := sqlList,
              transaction :=
                match lookupAssoc fields "transaction" with
                | some (.num n) => n
                | _ => 0 }
      | .error e => .error e
    | _, _ => .error { name := "TypeError", message := "malformed task" }
  | _ => .error { name := "TypeError", message := "task is not an object" }

/-- `JSON.parse` of a task config string followed by the shape reading the
executor's destructuring performs; a string that is not valid JSON (or not
a list of tasks) is an error, as `JSON.parse` would throw. -/
def jsonParseTasks (s : String) : Except JSError (List Task) :=
  match parseJsonVal (s.data.length + 2) s.data with
  | some (v, rest) =>
    if jsonWs rest = [] then
      match v with
      | .arr elems => elems.mapM jsValToTask
      | _ => .error { name := "TypeError", message := "tasks is not iterable" }
    else .error { name := "SyntaxError", message := "Unexpected token in JSON" }
  | none => .error { name := "SyntaxError", message := "Unexpected token in JSON" }

/-- A task config as `executeApiTask` receives it: either the JSON string
stored in the config document or the already-parsed structured value. -/
inductive TaskConfig where
  | str (s : String) : TaskConfig
  | tasks (ts : List Task) : TaskConfig

/-- executor.js `executeApiTask` (lines 12–39): parse a string config once,
run the tasks in order, and hand back the single task's result unwrapped or
the ordered list of results otherwise. -/
def executeApiTask {Data : Type} (sem : StmtSem Data) (resetFails : Bool)
    (pm : PoolManager Data) (taskConfig : TaskConfig)
    (requestParams : Params) : Except JSError JSVal :=
  match (match taskConfig with
         | .str s => jsonParseTasks s
         | .tasks ts => .ok ts) with
  | .error e => .error e
  | .ok tasks =>
    match runTasks sem resetFails pm requestParams tasks with
    | .error e => .error e
    | .ok results =>
      match results with
      | [v] => .ok v
      | _ => .ok (.arr results)

/-! ## Lemmas -/

theorem convertBuffersList_eq_map (l : List JSVal) :
    convertBuffersList l = l.map convertBuffers := by
  induction l with
  | nil => simp [convertBuffersList]
  | cons x xs ih => simp [convertBuffersList, ih]

theorem convertBuffersFields_eq_map (fs : List (String × JSVal)) :
    convertBuffersFields fs = fs.map (fun kv => (kv.1, convertBuffers kv.2)) := by
  induction fs with
  | nil => simp [convertBuffersFields]
  | cons kv fs ih =>
    cases kv
    simp [convertBuffersFields, ih]

theorem length_convertBuffersList (l : List JSVal) :
    (convertBuffersList l).length = l.length := by
  rw [convertBuffersList_eq_map]
  simp

theorem placeholderNames_cons_some {cs : List Char} {name : String}
    {rest : List Char} (h : tryPlaceholder cs = some (name, rest)) :
    placeholderNames ('#' :: cs) = name :: placeholderNames rest := by
  rw [placeholderNames.eq_2]
  split
  · rename_i name2 rest2 heq
    rw [h] at heq
    injection heq with heq2
    injection heq2 with h1 h2
    rw [h1, h2]
  · rename_i heq
    rw [h] at heq
    exact absurd heq (by simp)

theorem placeholderNames_cons_none {cs : List Char}
    (h : tryPlaceholder cs = none) :
    placeholderNames ('#' :: cs) = placeholderNames cs := by
  rw [placeholderNames.eq_2]
  split
  · rename_i name2 rest2 heq
    rw [h] at heq
    exact absurd heq (by simp)
  · rfl

theorem scanSql_cons_some {params : Params} {cs : List Char} {name : String}
    {rest : List Char} (h : tryPlaceholder cs = some (name, rest)) :
    scanSql params ('#' :: cs) =
      match lookupAssoc params name with
      | some v =>
        match scanSql params rest with
        | .ok (out, args) => .ok ('?' :: out, v :: args)
        | .error e => .error e
      | none => .error (missingParameterError name) := by
  rw [scanSql.eq_2]
  split
  · rename_i name2 rest2 heq
    rw [h] at heq
    injection heq with heq2
    injection heq2 with h1 h2
    rw [h1, h2]
  · rename_i heq
    rw [h] at heq
    exact absurd heq (by simp)

theorem scanSql_cons_none {params : Params} {cs : List Char}
    (h : tryPlaceholder cs = none) :
    scanSql params ('#' :: cs) =
      match scanSql params cs with
      | .ok (out, args) => .ok ('#' :: out, args)
      | .error e => .error e := by
  rw [scanSql.eq_2]
  split
  · rename_i name2 rest2 heq
    rw [h] at heq
    exact absurd heq (by simp)
  · rfl

theorem connExec_of_inTxn {Data : Type} {sem : StmtSem Data} {c : ConnState Data}
    {sql : String} {args : List JSVal} (h : c.inTxn = true) :
    connExec sem c sql args =
      match sem sql args c.pending c.session with
      | .error e => .error e
      | .ok (d, s, rows) => .ok ({ c with pending := d, session := s }, rows) := by
  unfold connExec
  split
  · rfl
  · simp [h]

theorem connExec_of_autocommit {Data : Type} {sem : StmtSem Data}
    {c : ConnState Data} {sql : String} {args : List JSVal}
    (h : c.inTxn = false) :
    connExec sem c sql args =
      match sem sql args c.pending c.session with
      | .error e => .error e
      | .ok (d, s, rows) =>
        .ok ({ c with pending := d, committed := d, session := s }, rows) := by
  unfold connExec
  split
  · rfl
  · simp [h]

/-- The executor loop's caller-visible outcome is exactly the sequential
chained semantics of the statements, started from the connection's current
working data and session: statement i+1 always observes the data and the
session produced by statement i. -/
theorem runSqlList_result {Data : Type} (sem : StmtSem Data) (rp : Params) :
    ∀ (l : List SqlItem) (c : ConnState Data) (last : JSVal),
    (runSqlList sem rp l c last).1 =
      match applyAll sem rp l c.pending c.session last with
      | .ok (_, _, v) => .ok v
      | .error e => .error e := by
  intro l
  induction l with
  | nil => intro c last; rfl
  | cons item rest ih =>
    intro c last
    simp only [runSqlList, applyAll]
    rcases hp : parseSql item.sqlText rp with e | ⟨sql, args⟩
    · rfl
    · simp only []
      rcases hs : sem sql args c.pending c.session with e | ⟨d, s, rows⟩
      · rcases hc : c.inTxn with - | -
        · rw [connExec_of_autocommit hc, hs]
        · rw [connExec_of_inTxn hc, hs]
      · rcases hc : c.inTxn with - | -
        · rw [connExec_of_autocommit hc, hs]
          simp only []
          rw [ih]
        · rw [connExec_of_inTxn hc, hs]
          simp only []
          rw [ih]

/-- Every event the executor loop emits is a statement execution. -/
theorem runSqlList_trace_execs {Data : Type} (sem : StmtSem Data) (rp : Params) :
    ∀ (l : List SqlItem) (c : ConnState Data) (last : JSVal),
    ∀ ev ∈ (runSqlList sem rp l c last).2.2, ev.isExec = true := by
  intro l
  induction l with
  | nil => intro c last ev hev; simp [runSqlList] at hev
  | cons item rest ih =>
    intro c last ev hev
    simp only [runSqlList] at hev
    rcases hp : parseSql item.sqlText rp with e | ⟨sql, args⟩
    · rw [hp] at hev
      simp at hev
    · rw [hp] at hev
      simp only [] at hev
      rcases he : connExec sem c sql args with e | ⟨c2, rows⟩
      · rw [he] at hev
        simp at hev
        rw [hev]
        rfl
      · rw [he] at hev
        simp only [List.mem_cons] at hev
        rcases hev with hev | hev
        · rw [hev]; rfl
        · exact ih c2 rows ev hev

/-- Inside a transaction the executor loop never touches the durable state
and never closes the transaction. -/
theorem runSqlList_txn_preserves {Data : Type} (sem : StmtSem Data) (rp : Params) :
    ∀ (l : List SqlItem) (c : ConnState Data) (last : JSVal), c.inTxn = true →
    (runSqlList sem rp l c last).2.1.inTxn = true
      ∧ (runSqlList sem rp l c last).2.1.committed = c.committed := by
  intro l
  induction l with
  | nil => intro c last hc; exact ⟨hc, rfl⟩
  | cons item rest ih =>
    intro c last hc
    simp only [runSqlList]
    rcases hp : parseSql item.sqlText rp with e | ⟨sql, args⟩
    · exact ⟨hc, rfl⟩
    · simp only []
      rw [connExec_of_inTxn hc]
      rcases hs : sem sql args c.pending c.session with e | ⟨d, s, rows⟩
      · exact ⟨hc, rfl⟩
      · simp only []
        exact ih { c with pending := d, session := s } rows hc

/-- On a successful sequential run, the executor loop inside a transaction
returns the last raw result, leaves the accumulated work in `pending`
without touching `committed`, and its trace lists the statements in
declared order. -/
theorem runSqlList_ok_of_txn {Data : Type} (sem : StmtSem Data) (rp : Params) :
    ∀ (l : List SqlItem) (c : ConnState Data) (last : JSVal)
      (d : Data) (s : List (String × JSVal)) (v : JSVal),
    c.inTxn = true →
    applyAll sem rp l c.pending c.session last = .ok (d, s, v) →
    runSqlList sem rp l c last =
      (.ok v, { c with pending := d, session := s }, execEvents rp l) := by
  intro l
  induction l with
  | nil =>
    intro c last d s v hc happ
    simp only [applyAll] at happ
    injection happ with happ
    injection happ with h1 happ
    injection happ with h2 h3
    subst h1; subst h2; subst h3
    simp [runSqlList, execEvents]
  | cons item rest ih =>
    intro c last d s v hc happ
    simp only [applyAll] at happ
    rcases hp : parseSql item.sqlText rp with e | ⟨sql, args⟩
    · rw [hp] at happ; exact absurd happ (by simp)
    · rw [hp] at happ
      simp only [] at happ
      rcases hs : sem sql args c.pending c.session with e | ⟨d2, s2, rows⟩
      · rw [hs] at happ; exact absurd happ (by simp)
      · rw [hs] at happ
        simp only [] at happ
        have ih2 := ih { c with pending := d2, session := s2 } rows d s v hc happ
        simp only [runSqlList]
        rw [hp]
        simp only []
        rw [connExec_of_inTxn hc, hs]
        simp only []
        rw [ih2]
        simp only [execEvents, hp]

/-- On a successful sequential run in autocommit mode (no open transaction,
pending = committed), the executor loop returns the last raw result, the
connection's durable state is the chained result of all statements, and the
trace lists the statements in declared order. -/
theorem runSqlList_ok_of_autocommit {Data : Type} (sem : StmtSem Data)
    (rp : Params) :
    ∀ (l : List SqlItem) (c : ConnState Data) (last : JSVal)
      (d : Data) (s : List (String × JSVal)) (v : JSVal),
    c.inTxn = false → c.pending = c.committed →
    applyAll sem rp l c.pending c.session last = .ok (d, s, v) →
    runSqlList sem rp l c last =
      (.ok v, { c with pending := d, committed := d, session := s },
        execEvents rp l) := by
  intro l
  induction l with
  | nil =>
    intro c last d s v hc hpc happ
    simp only [applyAll] at happ
    injection happ with happ
    injection happ with h1 happ
    injection happ with h2 h3
    subst h1; subst h2; subst h3
    simp only [runSqlList, execEvents]
    rcases c with ⟨cm, pd, ss, tx, hr⟩
    simp at hpc
    rw [hpc]
  | cons item rest ih =>
    intro c last d s v hc hpc happ
    simp only [applyAll] at happ
    rcases hp : parseSql item.sqlText rp with e | ⟨sql, args⟩
    · rw [hp] at happ; exact absurd happ (by simp)
    · rw [hp] at happ
      simp only [] at happ
      rcases hs : sem sql args c.pending c.session with e | ⟨d2, s2, rows⟩
      · rw [hs] at happ; exact absurd happ (by simp)
      · rw [hs] at happ
        simp only [] at happ
        have ih2 := ih { c with pending := d2, committed := d2, session := s2 }
          rows d s v hc rfl happ
        simp only [runSqlList]
        rw [hp]
        simp only []
        rw [connExec_of_autocommit hc, hs]
        simp only []
        rw [ih2]
        simp only [execEvents, hp]

/-- Session cleanup only ever touches the session variables, reports a
cleanup event, and never fails. -/
theorem cleanupSessionVariables_spec {Data : Type} (resetFails : Bool)
    (c : ConnState Data) :
    (cleanupSessionVariables resetFails c).1.committed = c.committed
      ∧ (cleanupSessionVariables resetFails c).1.pending = c.pending
      ∧ (cleanupSessionVariables resetFails c).2.isCleanup = true := by
  unfold cleanupSessionVariables
  rcases c.hasReset with - | - <;> rcases resetFails with - | - <;>
    exact ⟨rfl, rfl, rfl⟩

theorem countAcquire_append (a b : List ConnEvent) :
    countAcquire (a ++ b) = countAcquire a + countAcquire b := by
  induction a with
  | nil => simp [countAcquire]
  | cons ev rest ih =>
    rcases ev <;> simp [countAcquire, ih] <;> omega

theorem countRelease_append (a b : List ConnEvent) :
    countRelease (a ++ b) = countRelease a + countRelease b := by
  induction a with
  | nil => simp [countRelease]
  | cons ev rest ih =>
    rcases ev <;> simp [countRelease, ih] <;> omega

theorem countAcquire_of_execs {l : List ConnEvent}
    (h : ∀ ev ∈ l, ev.isExec = true) : countAcquire l = 0 := by
  induction l with
  | nil => rfl
  | cons ev rest ih =>
    have h1 := h ev (List.mem_cons_self _ _)
    rcases ev <;> simp [ConnEvent.isExec] at h1 <;>
      simp [countAcquire] <;>
      exact ih (fun e he => h e (List.mem_cons_of_mem _ he))

theorem countRelease_of_execs {l : List ConnEvent}
    (h : ∀ ev ∈ l, ev.isExec = true) : countRelease l = 0 := by
  induction l with
  | nil => rfl
  | cons ev rest ih =>
    have h1 := h ev (List.mem_cons_self _ _)
    rcases ev <;> simp [ConnEvent.isExec] at h1 <;>
      simp [countRelease] <;>
      exact ih (fun e he => h e (List.mem_cons_of_mem _ he))

/-- The caller-visible outcome corresponding to a chained sequential run:
its last raw result, normalized — or its error. -/
def chainResult {Data : Type}
    (r : Except JSError (Data × List (String × JSVal) × JSVal)) :
    Except JSError JSVal :=
  match r with
  | .ok (_, _, v) => .ok (formatResult v)
  | .error e => .error e

theorem countAcquire_pair {ce : ConnEvent} (h : ce.isCleanup = true) :
    countAcquire [ce, .release] = 0 := by
  rcases ce <;> first
    | rfl
    | exact absurd h (by simp [ConnEvent.isCleanup])

theorem countRelease_pair {ce : ConnEvent} (h : ce.isCleanup = true) :
    countRelease [ce, .release] = 1 := by
  rcases ce <;> first
    | rfl
    | exact absurd h (by simp [ConnEvent.isCleanup])

theorem trace_split_txn (t : List ConnEvent) (x ce : ConnEvent) :
    ConnEvent.acquire :: ConnEvent.beginTxn :: (t ++ [x, ce, .release])
      = (ConnEvent.acquire :: ConnEvent.beginTxn :: (t ++ [x]))
          ++ [ce, .release] := by
  simp

theorem trace_split_plain (t : List ConnEvent) (ce : ConnEvent) :
    ConnEvent.acquire :: (t ++ [ce, .release])
      = (ConnEvent.acquire :: t) ++ [ce, .release] := by
  simp

theorem getLast_cons_append_release (a : ConnEvent) (t : List ConnEvent)
    (ce : ConnEvent) :
    (a :: (t ++ [ce, .release])).getLast? = some .release := by
  rw [show a :: (t ++ [ce, .release]) = (a :: (t ++ [ce])) ++ [.release] by simp]
  exact List.getLast?_concat _

theorem lookupAssoc_buildPools_notMem {Data : Type} (r : String → Bool)
    (mk : String → ConnState Data) :
    ∀ (l : List (String × String)) (key : String),
    (∀ p ∈ l, p.1 ≠ key) →
    lookupAssoc (buildPools r mk l) key = none := by
  intro l
  induction l with
  | nil => intro key h; rfl
  | cons p rest ih =>
    intro key h
    rcases p with ⟨ds, env⟩
    have hds : ds ≠ key := h (ds, env) (List.mem_cons_self _ _)
    simp only [buildPools]
    by_cases hr : r ds
    · rw [if_pos hr]
      simp only [lookupAssoc, if_neg hds]
      exact ih key (fun q hq => h q (List.mem_cons_of_mem _ hq))
    · rw [if_neg hr]
      exact ih key (fun q hq => h q (List.mem_cons_of_mem _ hq))

theorem lookupAssoc_buildPools {Data : Type} (r : String → Bool)
    (mk : String → ConnState Data) :
    ∀ (l : List (String × String)) (key : String),
    (l.map Prod.fst).Nodup →
    lookupAssoc (buildPools r mk l) key =
      match lookupAssoc l key with
      | some _ => if r key then some { conn := mk key } else none
      | none => none := by
  intro l
  induction l with
  | nil => intro key hnd; rfl
  | cons p rest ih =>
    intro key hnd
    rcases p with ⟨ds, env⟩
    simp only [List.map_cons, List.nodup_cons] at hnd
    by_cases hds : ds = key
    · subst hds
      have hnot : ∀ q ∈ rest, q.1 ≠ ds := by
        intro q hq hq1
        exact hnd.1 (hq1 ▸ List.mem_map_of_mem Prod.fst hq)
      by_cases hr : r ds
      · simp [buildPools, lookupAssoc, hr]
      · simp [buildPools, lookupAssoc, hr,
          lookupAssoc_buildPools_notMem r mk rest ds hnot]
    · simp only [buildPools, lookupAssoc, if_neg hds]
      by_cases hr : r ds
      · rw [if_pos hr]
        simp only [lookupAssoc, if_neg hds]
        exact ih key hnd.2
      · rw [if_neg hr]
        exact ih key hnd.2

/-! ### Concrete instances used by the witnesses

A tiny world over `Data := Nat`: one datasource `"ds"`, a fresh connection
with empty session, and a statement semantics that increments the durable
state (statement `s`) or fails (statement `F`). -/

/-- Witness connection: fresh, autocommit, supports `resetConnection()`. -/
def wConn : ConnState Nat :=
  { committed := 0, pending := 0, session := [], inTxn := false,
    hasReset := true }

/-- Witness pool handing out `wConn`. -/
def wPool : Pool Nat := { conn := wConn }

/-- Witness pool manager with the single datasource `"ds"`. -/
def wPm : PoolManager Nat := { pools := [("ds", wPool)] }

/-- Witness statement semantics: the statement whose text is `F` fails with
a `StatementExecutionError`; any other statement increments the durable
state, records a session variable `k`, and returns the new state. -/
def wSem : StmtSem Nat := fun sql _args d s =>
  if sql = String.mk ['F'] then
    .error { name := "StatementExecutionError", message := "boom" }
  else .ok (d + 1, (String.mk ['k'], .num (d + 1)) :: s, .num (d + 1))

theorem scanSql_one_char {params : Params} {c : Char} (h : ¬c = '#') :
    scanSql params [c] = .ok ([c], []) := by
  rw [scanSql.eq_3 params c [] (fun hc => h hc), scanSql.eq_1]

theorem parseSql_one_char {params : Params} {c : Char} (h : ¬c = '#') :
    parseSql (String.mk [c]) params = .ok (String.mk [c], []) := by
  unfold parseSql
  have hd : (String.mk [c]).data = [c] := rfl
  rw [hd, scanSql_one_char h]

theorem wApplyOk :
    applyAll wSem [] [⟨String.mk ['s']⟩] wPool.conn.committed
        wPool.conn.session .null =
      .ok (1, [(String.mk ['k'], .num 1)], .num 1) := by
  simp only [applyAll, parseSql_one_char (show ¬ 's' = '#' by decide)]
  rfl

theorem wApplyOk2 :
    applyAll wSem [] [⟨String.mk ['s']⟩, ⟨String.mk ['t']⟩]
        wPool.conn.pending wPool.conn.session .null =
      .ok (2, [(String.mk ['k'], .num 2), (String.mk ['k'], .num 1)],
        .num 2) := by
  simp only [applyAll, parseSql_one_char (show ¬ 's' = '#' by decide),
    parseSql_one_char (show ¬ 't' = '#' by decide)]
  rfl

theorem wApplyErr :
    applyAll wSem [] [⟨String.mk ['F']⟩] wPool.conn.committed
        wPool.conn.session .null =
      .error { name := "StatementExecutionError", message := "boom" } := by
  simp only [applyAll, parseSql_one_char (show ¬ 'F' = '#' by decide)]
  rfl

/-- The scanner succeeds whenever every referenced placeholder name is
bound, and its ordered argument list is exactly the per-occurrence map of
the parameter values, in template order. -/
theorem scanSql_ok (params : Params) (cs : List Char)
    (h : ∀ n ∈ placeholderNames cs, (lookupAssoc params n).isSome = true) :
    ∃ out, scanSql params cs =
      .ok (out, (placeholderNames cs).map (paramValue params)) := by
  induction cs using scanSql.induct params with
  | case1 => exact ⟨[], by rw [scanSql.eq_1, placeholderNames.eq_1]; rfl⟩
  | case2 cs name rest hp v hv out args hscan ih =>
    rw [placeholderNames_cons_some hp] at h ⊢
    obtain ⟨out2, hout2⟩ := ih (fun n hn => h n (List.mem_cons_of_mem _ hn))
    rw [hscan] at hout2
    injection hout2 with hout2
    injection hout2 with ho ha
    refine ⟨'?' :: out, ?_⟩
    rw [scanSql_cons_some hp, hv, hscan, List.map_cons, ← ha]
    simp [paramValue, hv]
  | case3 cs name rest hp v hv e hscan ih =>
    rw [placeholderNames_cons_some hp] at h
    obtain ⟨out2, hout2⟩ := ih (fun n hn => h n (List.mem_cons_of_mem _ hn))
    rw [hscan] at hout2
    exact absurd hout2 (by simp)
  | case4 cs name rest hp hv =>
    rw [placeholderNames_cons_some hp] at h
    have := h name (List.mem_cons_self _ _)
    rw [hv] at this
    exact absurd this (by simp)
  | case5 cs hp out args hscan ih =>
    rw [placeholderNames_cons_none hp] at h ⊢
    obtain ⟨out2, hout2⟩ := ih h
    rw [hscan] at hout2
    injection hout2 with hout2
    injection hout2 with ho ha
    refine ⟨'#' :: out, ?_⟩
    rw [scanSql_cons_none hp, hscan, ← ha]
  | case6 cs hp e hscan ih =>
    rw [placeholderNames_cons_none hp] at h
    obtain ⟨out2, hout2⟩ := ih h
    rw [hscan] at hout2
    exact absurd hout2 (by simp)
  | case7 c cs hc out args hscan ih =>
    rw [placeholderNames.eq_3 c cs hc] at h ⊢
    obtain ⟨out2, hout2⟩ := ih h
    rw [hscan] at hout2
    injection hout2 with hout2
    injection hout2 with ho ha
    refine ⟨c :: out, ?_⟩
    rw [scanSql.eq_3 _ c cs hc, hscan, ← ha]
  | case8 c cs hc e hscan ih =>
    rw [placeholderNames.eq_3 c cs hc] at h
    obtain ⟨out2, hout2⟩ := ih h
    rw [hscan] at hout2
    exact absurd hout2 (by simp)

/-! ## Claims -/

/-- **C4.** The result normalizer maps every raw driver result to one of the
canonical shapes: a mutation result (an object carrying `affectedRows`) is
shaped to exactly the three fields `affectedRows`, `insertId`,
`warningCount`; a zero-row query yields the fixed "no result" marker, which
is distinct from an empty object; a one-row query yields that (buffer
converted) row itself as a flat column-to-value object; a query of two or
more rows yields the ordered list of such rows. -/
theorem formatResult_canonical_shapes :
    (∀ fields, (lookupAssoc fields "affectedRows").isSome = true →
      formatResult (.obj fields) =
        .obj [("affectedRows", fieldOr fields "affectedRows"),
              ("insertId", fieldOr fields "insertId"),
              ("warningCount", fieldOr fields "warningCount")])
    ∧ formatResult (.arr []) = noResultMarker
    ∧ noResultMarker ≠ .obj []
    ∧ (∀ row, formatResult (.arr [row]) = convertBuffers row)
    ∧ (∀ rows, 2 ≤ rows.length →
      formatResult (.arr rows) = .arr (convertBuffersList rows)) := by
  refine ⟨?_, ?_, ?_, ?_, ?_⟩
  · intro fields h
    simp [formatResult, h]
  · simp [formatResult, convertBuffersList, noResultMarker]
  · simp [noResultMarker]
  · intro row
    simp [formatResult, convertBuffersList]
  · intro rows h2
    have hl := length_convertBuffersList rows
    simp only [formatResult]
    rcases hc : convertBuffersList rows with - | ⟨x, - | ⟨y, tl2⟩⟩
    · rfl
    · rw [hc] at hl
      simp at hl
      omega
    · rfl

/-- Witness for C4: the conditional branches of
`formatResult_canonical_shapes` at concrete inputs. -/
theorem formatResult_canonical_shapes_witness :
    formatResult (.obj [("affectedRows", .num 3)]) =
      .obj [("affectedRows", .num 3), ("insertId", .undefined), ("warningCount", .undefined)]
    ∧ formatResult (.arr [.num 1]) = .num 1
    ∧ formatResult (.arr [.num 1, .num 2]) = .arr [.num 1, .num 2] :=
  ⟨formatResult_canonical_shapes.1 [("affectedRows", .num 3)] (by decide),
   formatResult_canonical_shapes.2.2.2.1 (.num 1),
   formatResult_canonical_shapes.2.2.2.2 [.num 1, .num 2] (by decide)⟩

/-- **C7.** Every column value arriving as a raw byte sequence — a `Buffer`,
a `Uint8Array`, or a serialized byte-array object of the form
`\x7btype: 'Buffer', data: [...]\x7d` — is decoded as UTF-8 text by
`convertBuffers`; the recursion through arrays and through the fields of
ordinary objects reaches such values at any nesting depth; and `formatResult`
applies this conversion to every (non-mutation) query result before
returning it. -/
theorem convertBuffers_decodes_bytes :
    (∀ bytes, convertBuffers (.buffer bytes) = .str (utf8Decode bytes))
    ∧ (∀ bytes, convertBuffers (.uint8 bytes) = .str (utf8Decode bytes))
    ∧ (∀ fields, isSerializedBuffer fields = true →
      convertBuffers (.obj fields) = .str (utf8Decode (serializedBytes fields)))
    ∧ (∀ elems, convertBuffers (.arr elems) = .arr (elems.map convertBuffers))
    ∧ (∀ fields, isSerializedBuffer fields = false →
      convertBuffers (.obj fields) =
        .obj (fields.map (fun kv => (kv.1, convertBuffers kv.2))))
    ∧ (∀ row, formatResult (.arr [row]) = convertBuffers row)
    ∧ (∀ rows, rows.length ≠ 1 →
      formatResult (.arr rows) = .arr (rows.map convertBuffers)) := by
  refine ⟨?_, ?_, ?_, ?_, ?_, ?_, ?_⟩
  · intro bytes
    simp [convertBuffers]
  · intro bytes
    simp [convertBuffers]
  · intro fields h
    simp [convertBuffers, h]
  · intro elems
    simp [convertBuffers, convertBuffersList_eq_map]
  · intro fields h
    simp [convertBuffers, h, convertBuffersFields_eq_map]
  · intro row
    simp [formatResult, convertBuffersList]
  · intro rows h1
    have hl := length_convertBuffersList rows
    simp only [formatResult]
    rw [← convertBuffersList_eq_map]
    rcases hc : convertBuffersList rows with - | ⟨x, - | ⟨y, tl2⟩⟩
    · rfl
    · rw [hc] at hl
      simp at hl
      omega
    · rfl

/-- **C3.** (spec-modelled: `queryParser.js` is not in the repository
snapshot, so `parseSql` is modelled from the spec's §4.2.)  For any SQL
template with N placeholder occurrences (names may repeat) and a parameter
map binding every referenced name, `bind` succeeds and its ordered argument
list has exactly length N, its i-th element being the parameter map's value
for the name of the i-th occurrence in left-to-right template order; a
repeated name contributes its value once per occurrence. -/
theorem parseSql_binding_determinism (template : String) (params : Params)
    (h : ∀ n ∈ placeholderNames template.data,
      (lookupAssoc params n).isSome = true) :
    ∃ out args, parseSql template params = .ok (out, args)
      ∧ args = (placeholderNames template.data).map (paramValue params)
      ∧ args.length = (placeholderNames template.data).length
      ∧ ∀ i (hi : i < (placeholderNames template.data).length)
          (hi2 : i < args.length),
          args.get ⟨i, hi2⟩ =
            paramValue params ((placeholderNames template.data).get ⟨i, hi⟩) := by
  obtain ⟨out, hout⟩ := scanSql_ok params template.data h
  refine ⟨String.mk out, _, ?_, rfl, by simp, ?_⟩
  · simp [parseSql, hout]
  · intro i hi hi2
    simp

/-- The characters of the witness template `#\x7ba\x7d#\x7bb\x7d#\x7ba\x7d`:
three placeholder occurrences of two names, the first name repeated. -/
def witnessTemplateChars : List Char :=
  ['#', '{', 'a', '}', '#', '{', 'b', '}', '#', '{', 'a', '}']

theorem witnessTemplate_names :
    placeholderNames witnessTemplateChars =
      [String.mk ['a'], String.mk ['b'], String.mk ['a']] := by
  show placeholderNames ('#' :: ['{', 'a', '}', '#', '{', 'b', '}', '#', '{', 'a', '}']) = _
  rw [@placeholderNames_cons_some
      ['{', 'a', '}', '#', '{', 'b', '}', '#', '{', 'a', '}']
      (String.mk ['a']) ['#', '{', 'b', '}', '#', '{', 'a', '}'] rfl]
  rw [@placeholderNames_cons_some ['{', 'b', '}', '#', '{', 'a', '}']
      (String.mk ['b']) ['#', '{', 'a', '}'] rfl]
  rw [@placeholderNames_cons_some ['{', 'a', '}'] (String.mk ['a']) [] rfl]
  rw [placeholderNames.eq_1]

/-- Witness for C3: the template `#\x7ba\x7d#\x7bb\x7d#\x7ba\x7d`
has three occurrences of two names; binding against
`a ↦ 1, b ↦ "x"` succeeds with the three values in occurrence order. -/
theorem parseSql_binding_determinism_witness :
    ∃ out args,
      parseSql (String.mk witnessTemplateChars) [("a", .num 1), ("b", .str "x")]
          = .ok (out, args)
      ∧ args = (placeholderNames (String.mk witnessTemplateChars).data).map
          (paramValue [("a", .num 1), ("b", .str "x")])
      ∧ args.length =
          (placeholderNames (String.mk witnessTemplateChars).data).length
      ∧ ∀ i (hi : i <
            (placeholderNames (String.mk witnessTemplateChars).data).length)
          (hi2 : i < args.length),
          args.get ⟨i, hi2⟩ =
            paramValue [("a", .num 1), ("b", .str "x")]
              ((placeholderNames (String.mk witnessTemplateChars).data).get
                ⟨i, hi⟩) :=
  parseSql_binding_determinism (String.mk witnessTemplateChars)
    [("a", .num 1), ("b", .str "x")] (by
      intro n hn
      have hd : (String.mk witnessTemplateChars).data = witnessTemplateChars :=
        rfl
      rw [hd, witnessTemplate_names] at hn
      simp only [List.mem_cons, List.not_mem_nil, or_false] at hn
      rcases hn with h1 | h1 | h1 <;> rw [h1] <;> decide)

/-- **C1.** For a transactional task (executed by `executeTransaction`),
the transaction is begun before the first statement executes (the trace is
`acquire, begin, statements..., commit/rollback, cleanup, release`); if the
sequential run of the statements fails, the transaction is rolled back, the
statement's error propagates to the caller, and the durable state is exactly
the state before the task (none of the statements' effects commit); if all
statements succeed, the transaction is committed after the last statement
and the durable state is the chained result of all statements (all effects
commit). -/
theorem executeTransaction_atomicity {Data : Type} (sem : StmtSem Data)
    (rf : Bool) (pm : PoolManager Data) (dsId : String)
    (sqlList : List SqlItem) (rp : Params) (pool : Pool Data)
    (hp : getPool pm dsId = .ok pool) :
    (∀ d s v,
      applyAll sem rp sqlList pool.conn.committed pool.conn.session .null
          = .ok (d, s, v) →
      ∃ cF ce, executeTransaction sem rf pm dsId sqlList rp =
        (.ok (formatResult v), some cF,
          .acquire :: .beginTxn ::
            (execEvents rp sqlList ++ [.commit, ce, .release]))
        ∧ cF.committed = d ∧ ce.isCleanup = true)
    ∧ (∀ e,
      applyAll sem rp sqlList pool.conn.committed pool.conn.session .null
          = .error e →
      ∃ cF t ce, executeTransaction sem rf pm dsId sqlList rp =
        (.error e, some cF,
          .acquire :: .beginTxn :: (t ++ [.rollback, ce, .release]))
        ∧ cF.committed = pool.conn.committed
        ∧ (∀ ev ∈ t, ev.isExec = true) ∧ ce.isCleanup = true) := by
  constructor
  · intro d s v happ
    have hrun := runSqlList_ok_of_txn sem rp sqlList (connBegin pool.conn)
      .null d s v rfl happ
    simp only [executeTransaction, hp]
    rw [hrun]
    refine ⟨_, _, rfl, ?_, ?_⟩
    · exact (cleanupSessionVariables_spec rf _).1
    · exact (cleanupSessionVariables_spec rf _).2.2
  · intro e happ
    have hres : (runSqlList sem rp sqlList (connBegin pool.conn) .null).1
        = .error e := by
      rw [runSqlList_result]
      have hc : (connBegin pool.conn).pending = pool.conn.committed := rfl
      have hs : (connBegin pool.conn).session = pool.conn.session := rfl
      rw [hc, hs, happ]
    have hpres := runSqlList_txn_preserves sem rp sqlList (connBegin pool.conn)
      .null rfl
    simp only [executeTransaction, hp]
    rcases hrun : runSqlList sem rp sqlList (connBegin pool.conn) .null
      with ⟨r1, c2, t⟩
    rw [hrun] at hres hpres
    simp only [] at hres hpres
    rw [hres]
    refine ⟨_, t, _, rfl, ?_, ?_, ?_⟩
    · rw [(cleanupSessionVariables_spec rf _).1]
      exact hpres.2
    · intro ev hev
      have := runSqlList_trace_execs sem rp sqlList (connBegin pool.conn) .null
      rw [hrun] at this
      exact this ev hev
    · exact (cleanupSessionVariables_spec rf _).2.2

/-- Witness for C1: a one-statement task committing its effect over
`Data := Nat` (the statement semantics increments the state), and a
one-statement failing task leaving the durable state untouched. -/
theorem executeTransaction_atomicity_witness :
    (∃ cF ce, executeTransaction wSem false wPm "ds" [⟨String.mk ['s']⟩] [] =
      (.ok (formatResult (.num 1)), some cF,
        .acquire :: .beginTxn ::
          (execEvents [] [⟨String.mk ['s']⟩] ++ [.commit, ce, .release]))
      ∧ cF.committed = 1 ∧ ce.isCleanup = true)
    ∧ (∃ cF t ce, executeTransaction wSem false wPm "ds" [⟨String.mk ['F']⟩] [] =
      (.error { name := "StatementExecutionError", message := "boom" },
        some cF, .acquire :: .beginTxn :: (t ++ [.rollback, ce, .release]))
      ∧ cF.committed = 0
      ∧ (∀ ev ∈ t, ev.isExec = true) ∧ ce.isCleanup = true) :=
  ⟨(executeTransaction_atomicity wSem false wPm "ds" [⟨String.mk ['s']⟩] []
      wPool rfl).1 1 [(String.mk ['k'], .num 1)] (.num 1) wApplyOk,
   (executeTransaction_atomicity wSem false wPm "ds" [⟨String.mk ['F']⟩] []
      wPool rfl).2 { name := "StatementExecutionError", message := "boom" }
      wApplyErr⟩

/-- **C2.** On every exit path of both executors — success or statement
failure — a session-cleanup event happens on the held connection
immediately before the single final `release` event, and a connection is
always handed back (`some` released state); and the cleanup's own failure
(`resetFails = true`) is invisible to the caller: the caller-visible
outcome is the same as when cleanup succeeds, and the trace still ends with
`release`. -/
theorem executors_cleanup_before_release {Data : Type} (sem : StmtSem Data)
    (pm : PoolManager Data) (dsId : String) (sqlList : List SqlItem)
    (rp : Params) (pool : Pool Data) (hp : getPool pm dsId = .ok pool) :
    (∀ rf, ∃ t ce cF,
      (executeTransaction sem rf pm dsId sqlList rp).2.2 = t ++ [ce, .release]
      ∧ ce.isCleanup = true
      ∧ (executeTransaction sem rf pm dsId sqlList rp).2.1 = some cF)
    ∧ (executeTransaction sem true pm dsId sqlList rp).1
        = (executeTransaction sem false pm dsId sqlList rp).1
    ∧ (∀ rf, ∃ t ce cF,
      (executeNonTransaction sem rf pm dsId sqlList rp).2.2
          = t ++ [ce, .release]
      ∧ ce.isCleanup = true
      ∧ (executeNonTransaction sem rf pm dsId sqlList rp).2.1 = some cF)
    ∧ (executeNonTransaction sem true pm dsId sqlList rp).1
        = (executeNonTransaction sem false pm dsId sqlList rp).1 := by
  refine ⟨?_, ?_, ?_, ?_⟩
  · intro rf
    simp only [executeTransaction, hp]
    rcases hrun : runSqlList sem rp sqlList (connBegin pool.conn) .null
      with ⟨r1, c2, t⟩
    rcases r1 with e | last
    · exact ⟨_, _, _, trace_split_txn t .rollback _,
        (cleanupSessionVariables_spec rf _).2.2, rfl⟩
    · exact ⟨_, _, _, trace_split_txn t .commit _,
        (cleanupSessionVariables_spec rf _).2.2, rfl⟩
  · simp only [executeTransaction, hp]
    rcases hrun : runSqlList sem rp sqlList (connBegin pool.conn) .null
      with ⟨r1, c2, t⟩
    rcases r1 with e | last <;> rfl
  · intro rf
    simp only [executeNonTransaction, hp]
    rcases hrun : runSqlList sem rp sqlList pool.conn .null with ⟨r1, c2, t⟩
    rcases r1 with e | last
    · exact ⟨_, _, _, trace_split_plain t _,
        (cleanupSessionVariables_spec rf _).2.2, rfl⟩
    · exact ⟨_, _, _, trace_split_plain t _,
        (cleanupSessionVariables_spec rf _).2.2, rfl⟩
  · simp only [executeNonTransaction, hp]
    rcases hrun : runSqlList sem rp sqlList pool.conn .null with ⟨r1, c2, t⟩
    rcases r1 with e | last <;> rfl

/-- Witness for C2: the cleanup-before-release shape and the
failure-invisibility of cleanup at a concrete one-statement task (with
`resetFails = true` for the trace conjuncts). -/
theorem executors_cleanup_before_release_witness :
    (∃ t ce cF,
      (executeTransaction wSem true wPm "ds" [⟨String.mk ['s']⟩] []).2.2
          = t ++ [ce, .release]
      ∧ ce.isCleanup = true
      ∧ (executeTransaction wSem true wPm "ds" [⟨String.mk ['s']⟩] []).2.1
          = some cF)
    ∧ (executeTransaction wSem true wPm "ds" [⟨String.mk ['s']⟩] []).1
        = (executeTransaction wSem false wPm "ds" [⟨String.mk ['s']⟩] []).1
    ∧ (∃ t ce cF,
      (executeNonTransaction wSem true wPm "ds" [⟨String.mk ['s']⟩] []).2.2
          = t ++ [ce, .release]
      ∧ ce.isCleanup = true
      ∧ (executeNonTransaction wSem true wPm "ds" [⟨String.mk ['s']⟩] []).2.1
          = some cF)
    ∧ (executeNonTransaction wSem true wPm "ds" [⟨String.mk ['s']⟩] []).1
        = (executeNonTransaction wSem false wPm "ds" [⟨String.mk ['s']⟩] []).1 :=
  ⟨(executors_cleanup_before_release wSem wPm "ds" [⟨String.mk ['s']⟩] []
      wPool rfl).1 true,
   (executors_cleanup_before_release wSem wPm "ds" [⟨String.mk ['s']⟩] []
      wPool rfl).2.1,
   (executors_cleanup_before_release wSem wPm "ds" [⟨String.mk ['s']⟩] []
      wPool rfl).2.2.1 true,
   (executors_cleanup_before_release wSem wPm "ds" [⟨String.mk ['s']⟩] []
      wPool rfl).2.2.2⟩

/-- **C5.** A non-transactional multi-statement task runs on one single
pooled connection: its trace contains exactly one `acquire` (first event)
and exactly one `release` (last event), every statement execution happening
in between on that connection; consequently the caller-visible outcome is
the chained sequential semantics `applyAll`, in which each statement runs
on the data and the session produced by its predecessor — in particular
(last conjunct) after statement 1 yields session `s1`, the remaining
statements are evaluated starting exactly from `s1`, so a session-scoped
value set by an earlier statement is visible to every later one. -/
theorem executeNonTransaction_connection_affinity {Data : Type}
    (sem : StmtSem Data) (rf : Bool) (pm : PoolManager Data) (dsId : String)
    (sqlList : List SqlItem) (rp : Params) (pool : Pool Data)
    (hp : getPool pm dsId = .ok pool) (htx : pool.conn.inTxn = false)
    (hpc : pool.conn.pending = pool.conn.committed) :
    countAcquire (executeNonTransaction sem rf pm dsId sqlList rp).2.2 = 1
    ∧ countRelease (executeNonTransaction sem rf pm dsId sqlList rp).2.2 = 1
    ∧ (executeNonTransaction sem rf pm dsId sqlList rp).2.2.head?
        = some .acquire
    ∧ (executeNonTransaction sem rf pm dsId sqlList rp).2.2.getLast?
        = some .release
    ∧ (∀ d s v,
      applyAll sem rp sqlList pool.conn.pending pool.conn.session .null
          = .ok (d, s, v) →
      (executeNonTransaction sem rf pm dsId sqlList rp).1
          = .ok (formatResult v)
      ∧ ∃ cF, (executeNonTransaction sem rf pm dsId sqlList rp).2.1 = some cF
          ∧ cF.committed = d)
    ∧ (∀ item1 rest sql1 args1 d1 s1 r1,
      parseSql item1.sqlText rp = .ok (sql1, args1) →
      sem sql1 args1 pool.conn.pending pool.conn.session = .ok (d1, s1, r1) →
      (executeNonTransaction sem rf pm dsId (item1 :: rest) rp).1 =
        chainResult (applyAll sem rp rest d1 s1 r1)) := by
  have htrace := runSqlList_trace_execs sem rp sqlList pool.conn .null
  refine ⟨?_, ?_, ?_, ?_, ?_, ?_⟩
  · simp only [executeNonTransaction, hp]
    rcases hrun : runSqlList sem rp sqlList pool.conn .null with ⟨r1, c2, t⟩
    rw [hrun] at htrace
    have hce := (cleanupSessionVariables_spec rf c2).2.2
    rcases r1 with e | last <;>
      simp only [countAcquire, countAcquire_append,
        countAcquire_of_execs htrace, countAcquire_pair hce]
  · simp only [executeNonTransaction, hp]
    rcases hrun : runSqlList sem rp sqlList pool.conn .null with ⟨r1, c2, t⟩
    rw [hrun] at htrace
    have hce := (cleanupSessionVariables_spec rf c2).2.2
    rcases r1 with e | last <;>
      simp only [countRelease, countRelease_append,
        countRelease_of_execs htrace, countRelease_pair hce]
  · simp only [executeNonTransaction, hp]
    rcases hrun : runSqlList sem rp sqlList pool.conn .null with ⟨r1, c2, t⟩
    rcases r1 with e | last <;> rfl
  · simp only [executeNonTransaction, hp]
    rcases hrun : runSqlList sem rp sqlList pool.conn .null with ⟨r1, c2, t⟩
    rcases r1 with e | last <;>
      exact getLast_cons_append_release _ _ _
  · intro d s v happ
    have hrun := runSqlList_ok_of_autocommit sem rp sqlList pool.conn .null
      d s v htx hpc happ
    simp only [executeNonTransaction, hp]
    rw [hrun]
    exact ⟨rfl, _, rfl, (cleanupSessionVariables_spec rf _).1⟩
  · intro item1 rest sql1 args1 d1 s1 r1 hps hsem
    simp only [executeNonTransaction, hp, runSqlList, hps]
    rw [connExec_of_autocommit htx, hsem]
    simp only []
    have hres := runSqlList_result sem rp rest
      { pool.conn with pending := d1, committed := d1, session := s1 } r1
    rcases hrun : runSqlList sem rp rest
        { pool.conn with pending := d1, committed := d1, session := s1 } r1
      with ⟨r2, c2, t⟩
    rw [hrun] at hres
    simp only [] at hres
    rw [hres]
    simp only [chainResult]
    rcases happ2 : applyAll sem rp rest d1 s1 r1 with e | ⟨d2, s2, v2⟩
    · rfl
    · rfl

/-- Witness for C5: a two-statement non-transactional task over
`Data := Nat`; the second statement observes the incremented state and the
session variable recorded by the first. -/
theorem executeNonTransaction_connection_affinity_witness :
    countAcquire (executeNonTransaction wSem false wPm "ds"
        [⟨String.mk ['s']⟩, ⟨String.mk ['t']⟩] []).2.2 = 1
    ∧ countRelease (executeNonTransaction wSem false wPm "ds"
        [⟨String.mk ['s']⟩, ⟨String.mk ['t']⟩] []).2.2 = 1
    ∧ (executeNonTransaction wSem false wPm "ds"
        [⟨String.mk ['s']⟩, ⟨String.mk ['t']⟩] []).2.2.head? = some .acquire
    ∧ (executeNonTransaction wSem false wPm "ds"
        [⟨String.mk ['s']⟩, ⟨String.mk ['t']⟩] []).2.2.getLast? = some .release
    ∧ ((executeNonTransaction wSem false wPm "ds"
          [⟨String.mk ['s']⟩, ⟨String.mk ['t']⟩] []).1
        = .ok (formatResult (.num 2))
      ∧ ∃ cF, (executeNonTransaction wSem false wPm "ds"
          [⟨String.mk ['s']⟩, ⟨String.mk ['t']⟩] []).2.1 = some cF
        ∧ cF.committed = 2)
    ∧ (executeNonTransaction wSem false wPm "ds"
          [⟨String.mk ['s']⟩, ⟨String.mk ['t']⟩] []).1 =
        chainResult (applyAll wSem [] [⟨String.mk ['t']⟩] 1
          [(String.mk ['k'], .num 1)] (.num 1)) := by
  have h := executeNonTransaction_connection_affinity wSem false wPm "ds"
    [⟨String.mk ['s']⟩, ⟨String.mk ['t']⟩] [] wPool rfl rfl rfl
  refine ⟨h.1, h.2.1, h.2.2.1, h.2.2.2.1,
    h.2.2.2.2.1 2 [(String.mk ['k'], .num 2), (String.mk ['k'], .num 1)]
      (.num 2) wApplyOk2, ?_⟩
  exact h.2.2.2.2.2 ⟨String.mk ['s']⟩ [⟨String.mk ['t']⟩] (String.mk ['s']) []
    1 [(String.mk ['k'], .num 1)] (.num 1)
    (@parseSql_one_char [] 's' (by decide)) rfl

/-- **C10.** A task whose statement list is empty still acquires a
connection, performs session cleanup and releases the connection; when
transactional it also begins and commits an (empty) transaction; and the
value the task returns is `null` (the loop's initial `lastResult`,
normalized) — no error is raised for the absence of statements. -/
theorem empty_sqlList_behaviour {Data : Type} (sem : StmtSem Data)
    (rf : Bool) (pm : PoolManager Data) (dsId : String) (rp : Params)
    (pool : Pool Data) (hp : getPool pm dsId = .ok pool) :
    (∃ cF ce, executeTransaction sem rf pm dsId [] rp =
      (.ok .null, some cF, [.acquire, .beginTxn, .commit, ce, .release])
      ∧ ce.isCleanup = true)
    ∧ (∃ cF ce, executeNonTransaction sem rf pm dsId [] rp =
      (.ok .null, some cF, [.acquire, ce, .release])
      ∧ ce.isCleanup = true)
    ∧ (∀ tf : Int, executeApiTask sem rf pm
        (.tasks [{ datasourceId := dsId, sqlList := [], transaction := tf }])
        rp = .ok .null) := by
  have hT : executeTransaction sem rf pm dsId [] rp =
      (.ok .null, some (cleanupSessionVariables rf
          (connCommit (connBegin pool.conn))).1,
        [.acquire, .beginTxn, .commit,
          (cleanupSessionVariables rf (connCommit (connBegin pool.conn))).2,
          .release]) := by
    simp only [executeTransaction, hp, runSqlList]
    simp [formatResult, convertBuffers]
  have hN : executeNonTransaction sem rf pm dsId [] rp =
      (.ok .null, some (cleanupSessionVariables rf pool.conn).1,
        [.acquire, (cleanupSessionVariables rf pool.conn).2, .release]) := by
    simp only [executeNonTransaction, hp, runSqlList]
    simp [formatResult, convertBuffers]
  refine ⟨⟨_, _, hT, (cleanupSessionVariables_spec rf _).2.2⟩,
    ⟨_, _, hN, (cleanupSessionVariables_spec rf _).2.2⟩, ?_⟩
  intro tf
  simp only [executeApiTask, runTasks]
  by_cases htf : tf = 1
  · simp [htf, hT]
  · simp [htf, hN]

/-- Witness for C10: the empty-statement-list behaviour at the concrete
one-datasource world. -/
theorem empty_sqlList_behaviour_witness :
    (∃ cF ce, executeTransaction wSem false wPm "ds" [] [] =
      (.ok .null, some cF, [.acquire, .beginTxn, .commit, ce, .release])
      ∧ ce.isCleanup = true)
    ∧ (∃ cF ce, executeNonTransaction wSem false wPm "ds" [] [] =
      (.ok .null, some cF, [.acquire, ce, .release])
      ∧ ce.isCleanup = true)
    ∧ executeApiTask wSem false wPm
        (.tasks [{ datasourceId := "ds", sqlList := [], transaction := 1 }])
        [] = .ok .null :=
  ⟨(empty_sqlList_behaviour wSem false wPm "ds" [] wPool rfl).1,
   (empty_sqlList_behaviour wSem false wPm "ds" [] wPool rfl).2.1,
   (empty_sqlList_behaviour wSem false wPm "ds" [] wPool rfl).2.2 1⟩

/-- **C6.** Within a task the statements execute strictly in declared order
(the exec events of both executors' traces are `execEvents` of the
statement list, in list order), and the task's value is the normalizer's
shaping of the *last* statement's raw result only (`formatResult v` for the
chained run's last raw value `v`, never an aggregate); `runTasks` collects
the per-task results in declared order, and `executeApiTask` hands a single
task's result back unwrapped while two or more tasks yield the ordered
list. -/
theorem task_results_shape {Data : Type} (sem : StmtSem Data) (rf : Bool)
    (pm : PoolManager Data) (dsId : String) (sqlList : List SqlItem)
    (rp : Params) (pool : Pool Data) (d : Data)
    (s : List (String × JSVal)) (v : JSVal)
    (hp : getPool pm dsId = .ok pool) (htx : pool.conn.inTxn = false)
    (hpc : pool.conn.pending = pool.conn.committed)
    (happ : applyAll sem rp sqlList pool.conn.pending pool.conn.session .null
      = .ok (d, s, v)) :
    (∃ ce, (executeNonTransaction sem rf pm dsId sqlList rp).2.2 =
        .acquire :: (execEvents rp sqlList ++ [ce, .release])
      ∧ ce.isCleanup = true)
    ∧ (executeNonTransaction sem rf pm dsId sqlList rp).1
        = .ok (formatResult v)
    ∧ (∃ ce, (executeTransaction sem rf pm dsId sqlList rp).2.2 =
        .acquire :: .beginTxn ::
          (execEvents rp sqlList ++ [.commit, ce, .release])
      ∧ ce.isCleanup = true)
    ∧ (executeTransaction sem rf pm dsId sqlList rp).1 = .ok (formatResult v)
    ∧ (∀ tasks results, runTasks sem rf pm rp tasks = .ok results →
        (∀ w, results = [w] →
          executeApiTask sem rf pm (.tasks tasks) rp = .ok w)
        ∧ (results.length ≠ 1 →
          executeApiTask sem rf pm (.tasks tasks) rp = .ok (.arr results)))
    ∧ (∀ (task : Task) rest w ws,
        (if task.transaction = 1
          then (executeTransaction sem rf pm task.datasourceId
            task.sqlList rp).1
          else (executeNonTransaction sem rf pm task.datasourceId
            task.sqlList rp).1) = .ok w →
        runTasks sem rf pm rp rest = .ok ws →
        runTasks sem rf pm rp (task :: rest) = .ok (w :: ws)) := by
  have hrunN := runSqlList_ok_of_autocommit sem rp sqlList pool.conn .null
    d s v htx hpc happ
  have happC : applyAll sem rp sqlList pool.conn.committed pool.conn.session
      .null = .ok (d, s, v) := by rw [← hpc]; exact happ
  have hrunT := runSqlList_ok_of_txn sem rp sqlList (connBegin pool.conn)
    .null d s v rfl happC
  refine ⟨?_, ?_, ?_, ?_, ?_, ?_⟩
  · simp only [executeNonTransaction, hp]
    rw [hrunN]
    exact ⟨_, rfl, (cleanupSessionVariables_spec rf _).2.2⟩
  · simp only [executeNonTransaction, hp]
    rw [hrunN]
  · simp only [executeTransaction, hp]
    rw [hrunT]
    exact ⟨_, rfl, (cleanupSessionVariables_spec rf _).2.2⟩
  · simp only [executeTransaction, hp]
    rw [hrunT]
  · intro tasks results hrt
    constructor
    · intro w hw
      simp only [executeApiTask, hrt, hw]
    · intro hlen
      simp only [executeApiTask, hrt]
      rcases results with - | ⟨a, - | ⟨b, tl⟩⟩
      · rfl
      · exact absurd rfl hlen
      · rfl
  · intro task rest w ws h1 h2
    simp only [runTasks, h1, h2]

/-- Witness for C6: a one-statement task over `Data := Nat` whose exec
trace is the declared statement, whose value is the last (only)
statement's normalized result, and whose single-task `executeApiTask`
run returns that value unwrapped while a two-task run returns the ordered
pair. -/
theorem task_results_shape_witness :
    (executeNonTransaction wSem false wPm "ds" [⟨String.mk ['s']⟩] []).1
        = .ok (formatResult (.num 1))
    ∧ (∃ ce, (executeNonTransaction wSem false wPm "ds"
        [⟨String.mk ['s']⟩] []).2.2 =
        .acquire :: (execEvents [] [⟨String.mk ['s']⟩] ++ [ce, .release])
      ∧ ce.isCleanup = true)
    ∧ executeApiTask wSem false wPm
        (.tasks [⟨"ds", [⟨String.mk ['s']⟩], 0⟩]) []
        = .ok (formatResult (.num 1))
    ∧ executeApiTask wSem false wPm
        (.tasks [⟨"ds", [⟨String.mk ['s']⟩], 0⟩,
          ⟨"ds", [⟨String.mk ['s']⟩], 0⟩]) []
        = .ok (.arr [formatResult (.num 1), formatResult (.num 1)]) := by
  have h := task_results_shape wSem false wPm "ds" [⟨String.mk ['s']⟩] []
    wPool 1 [(String.mk ['k'], .num 1)] (.num 1) rfl rfl rfl wApplyOk
  have hone : (if (⟨"ds", [⟨String.mk ['s']⟩], 0⟩ : Task).transaction = 1
      then (executeTransaction wSem false wPm "ds" [⟨String.mk ['s']⟩] []).1
      else (executeNonTransaction wSem false wPm "ds"
        [⟨String.mk ['s']⟩] []).1) = .ok (formatResult (.num 1)) := by
    rw [if_neg (by decide)]
    exact h.2.1
  have hrt1 : runTasks wSem false wPm []
      [⟨"ds", [⟨String.mk ['s']⟩], 0⟩] = .ok [formatResult (.num 1)] :=
    h.2.2.2.2.2 _ [] (formatResult (.num 1)) [] hone rfl
  have hrt2 : runTasks wSem false wPm []
      [⟨"ds", [⟨String.mk ['s']⟩], 0⟩, ⟨"ds", [⟨String.mk ['s']⟩], 0⟩] =
      .ok [formatResult (.num 1), formatResult (.num 1)] :=
    h.2.2.2.2.2 _ _ (formatResult (.num 1)) [formatResult (.num 1)] hone hrt1
  exact ⟨h.2.1, h.1,
    (h.2.2.2.2.1 _ _ hrt1).1 (formatResult (.num 1)) rfl,
    (h.2.2.2.2.1 _ _ hrt2).2 (by decide)⟩

/-- **C8 (counterexample).** The claim as stated is false in its error-kind
part: a task addressed to the datasource skipped at startup does fail at
pool-lookup time, but with a plain JS `Error` (name `"Error"`, message
`数据源 <id> 不存在`), not with an error of kind `DatasourceUnavailable` —
while a reachable datasource's pool is still created. -/
theorem datasource_error_kind_counterexample :
    @executeApiTask Nat wSem false
        (initializePools (fun id => decide (¬id = "YYKtG9Dv"))
          (fun _ => wConn))
        (.tasks [⟨"YYKtG9Dv", [], 0⟩]) []
      = .error { name := "Error", message := "数据源 YYKtG9Dv 不存在" }
    ∧ ({ name := "Error", message := "数据源 YYKtG9Dv 不存在" }
        : JSError).name ≠ "DatasourceUnavailable"
    ∧ getPool (@initializePools Nat
        (fun id => decide (¬id = "YYKtG9Dv")) (fun _ => wConn)) "ukG1SAgu"
      = .ok { conn := wConn } :=
  ⟨rfl, by decide, rfl⟩

/-- **C8 (amended).** Pool initialization does not abort startup when an
individual datasource is unreachable: that datasource is skipped while
pools for reachable datasources are still created; a later task addressed
to the unavailable datasource fails at pool-lookup (connection-acquire)
time with a plain `Error` whose message names the datasource
(`数据源 <id> 不存在`) — not with a typed `DatasourceUnavailable` error —
and tasks on the other datasources remain usable. -/
theorem initializePools_degrades {Data : Type} (reachable : String → Bool)
    (mkConn : String → ConnState Data) (dsId : String)
    (hmem : (lookupAssoc datasourceMapping dsId).isSome = true) :
    (reachable dsId = true →
      getPool (initializePools reachable mkConn) dsId
          = .ok { conn := mkConn dsId }
      ∧ ∀ (sem : StmtSem Data) rf rp,
        executeApiTask sem rf (initializePools reachable mkConn)
          (.tasks [⟨dsId, [], 0⟩]) rp = .ok .null)
    ∧ (reachable dsId = false →
      getPool (initializePools reachable mkConn) dsId =
        .error { name := "Error"
                 message := "数据源 " ++ dsId ++ " 不存在" }
      ∧ ∀ (sem : StmtSem Data) rf rp,
        executeApiTask sem rf (initializePools reachable mkConn)
          (.tasks [⟨dsId, [], 0⟩]) rp =
          .error { name := "Error"
                   message := "数据源 " ++ dsId ++ " 不存在" }) := by
  have hnd : (datasourceMapping.map Prod.fst).Nodup := by decide
  have hlp := lookupAssoc_buildPools reachable mkConn datasourceMapping
    dsId hnd
  rcases hm : lookupAssoc datasourceMapping dsId with - | env
  · rw [hm] at hmem
    exact absurd hmem (by simp)
  · rw [hm] at hlp
    simp only [] at hlp
    constructor
    · intro hr
      have hgp : getPool (initializePools reachable mkConn) dsId
          = .ok { conn := mkConn dsId } := by
        simp [getPool, initializePools, hlp, hr]
      refine ⟨hgp, ?_⟩
      intro sem rf rp
      have hN : (executeNonTransaction sem rf
          (initializePools reachable mkConn) dsId [] rp).1 = .ok .null := by
        simp only [executeNonTransaction, hgp, runSqlList]
        simp [formatResult, convertBuffers]
      simp only [executeApiTask, runTasks]
      simp [hN]
    · intro hr
      have hgp : getPool (initializePools reachable mkConn) dsId =
          .error { name := "Error"
                   message := "数据源 " ++ dsId ++ " 不存在" } := by
        simp [getPool, initializePools, hlp, hr]
      refine ⟨hgp, ?_⟩
      intro sem rf rp
      have hN : (executeNonTransaction sem rf
          (initializePools reachable mkConn) dsId [] rp).1 =
          .error { name := "Error"
                   message := "数据源 " ++ dsId ++ " 不存在" } := by
        simp only [executeNonTransaction, hgp]
      simp only [executeApiTask, runTasks]
      simp [hN]

/-- Witness for C8: with `YYKtG9Dv` unreachable at startup, its pool lookup
fails with the plain error while `ukG1SAgu` still gets a pool and an empty
task on it succeeds. -/
theorem initializePools_degrades_witness :
    getPool (@initializePools Nat
        (fun id => decide (¬id = "YYKtG9Dv")) (fun _ => wConn)) "ukG1SAgu"
      = .ok { conn := wConn }
    ∧ getPool (@initializePools Nat
        (fun id => decide (¬id = "YYKtG9Dv")) (fun _ => wConn)) "YYKtG9Dv"
      = .error { name := "Error"
                 message := "数据源 " ++ "YYKtG9Dv" ++ " 不存在" }
    ∧ executeApiTask wSem false
        (initializePools (fun id => decide (¬id = "YYKtG9Dv"))
          (fun _ => wConn))
        (.tasks [⟨"ukG1SAgu", [], 0⟩]) [] = .ok .null :=
  ⟨((initializePools_degrades (fun id => decide (¬id = "YYKtG9Dv"))
      (fun _ => wConn) "ukG1SAgu" (by decide)).1 (by decide)).1,
   ((initializePools_degrades (fun id => decide (¬id = "YYKtG9Dv"))
      (fun _ => wConn) "YYKtG9Dv" (by decide)).2 (by decide)).1,
   ((initializePools_degrades (fun id => decide (¬id = "YYKtG9Dv"))
      (fun _ => wConn) "ukG1SAgu" (by decide)).1 (by decide)).2 wSem false []⟩

/-- **C9.** A string task config is JSON-parsed once at entry and then
handled identically to the already-parsed structured value: whenever string
`s` parses to the task list `ts`, executing the engine on the string yields
exactly the same result as executing it on `ts`, for every statement
semantics, pool manager and parameter map. -/
theorem executeApiTask_parse_once {Data : Type} (sem : StmtSem Data)
    (rf : Bool) (pm : PoolManager Data) (rp : Params) (s : String)
    (ts : List Task) (h : jsonParseTasks s = .ok ts) :
    executeApiTask sem rf pm (.str s) rp
      = executeApiTask sem rf pm (.tasks ts) rp := by
  simp only [executeApiTask, h]

/-- Witness for C9: the serialized form of the one-task config on
datasource `ds` behaves exactly like its parsed form. -/
theorem executeApiTask_parse_once_witness :
    executeApiTask wSem false wPm
        (.str "[\x7b\"datasourceId\":\"ds\",\"sqlList\":[],\"transaction\":0\x7d]")
        []
      = executeApiTask wSem false wPm (.tasks [⟨"ds", [], 0⟩]) [] :=
  executeApiTask_parse_once wSem false wPm []
    "[\x7b\"datasourceId\":\"ds\",\"sqlList\":[],\"transaction\":0\x7d]"
    [⟨"ds", [], 0⟩] rfl

/-- Witness for C7: the conditional branches of
`convertBuffers_decodes_bytes` at concrete inputs — a serialized Buffer
`\x7btype: 'Buffer', data: [104, 105]\x7d` decodes to `"hi"`, an ordinary
object recurses, a two-row result is converted row-wise. -/
theorem convertBuffers_decodes_bytes_witness :
    convertBuffers (.obj [("type", .str "Buffer"), ("data", .arr [.num 104, .num 105])]) =
      .str (utf8Decode [104, 105])
    ∧ convertBuffers (.obj [("a", .buffer [104])]) =
      .obj [("a", convertBuffers (.buffer [104]))]
    ∧ formatResult (.arr [.buffer [104], .buffer [105]]) =
      .arr [convertBuffers (.buffer [104]), convertBuffers (.buffer [105])] :=
  ⟨convertBuffers_decodes_bytes.2.2.1 _ (by decide),
   convertBuffers_decodes_bytes.2.2.2.2.1 [("a", .buffer [104])] (by decide),
   convertBuffers_decodes_bytes.2.2.2.2.2.2 [.buffer [104], .buffer [105]] (by decide)⟩

end SqlApi
